import Mathlib

/-!
Verification of the slackbot conversational-bot runtime: a shallow embedding of
the dispatch engine (`processMessage`), the exchange state machine
(`continueExecution`, `incrementCurrentStep`, `SkipToStep`, `handleError`,
`Terminate`, reply paths), the circuit breaker (`checkCircuitBreaker`) and the
default store (`SimpleStore`), together with theorems settling the specified
properties.

Modelling conventions:
* An inbound slack `MessageEvent` is reduced to the fields the engine reads.
* A `Step`'s `Handler` / `MsgHandler` callbacks are user code interacting with
  the system only through the exchange API (`Reply`, `SkipToStep`,
  `Terminate`) and a returned error / retry flag; they are embedded as a list
  of those API calls (`HCmd`) plus the returned values.
* The world visible to one exchange is the record `St`: the step map, the
  cursor, the registry membership of this exchange's thread
  (`bot.activeExchanges`), the messages successfully posted, the debug log,
  and an oracle `sendPlan` giving the outcome of each successive transport
  `PostMessage` call (`none` = success, `some e` = error `e`).  The bot is
  taken with `DebugChannel` unset and no circuit breaker configured, so
  `LogDebug` only appends to the log; the circuit breaker is modelled
  separately with explicit integer time.
* A nil-pointer dereference (a Go runtime panic) is recorded by the
  `panicked` flag; once set nothing else of the crash is modelled.
* `continueExecution` recurses into itself in the source; the embedding takes
  explicit fuel and returns `none` when the fuel is exhausted.
-/

namespace Slackbot

/-- The fields of an inbound message event read by the engine. -/
structure Event where
  user : String
  text : String
  channel : String
  threadTimestamp : String
  timestamp : String
deriving Repr, DecidableEq

/-- An exchange-API call made by user handler code: `ex.Reply msg`,
`ex.SkipToStep i` (result ignored by the handler), or `ex.Terminate`. -/
inductive HCmd where
  | hreply (msg : String)
  | hskip (i : Int)
  | hterminate
deriving Repr, DecidableEq

/-- One step of an exchange (source `Step`): a name, a literal message, an
optional handler (its API calls plus returned error), and an optional
message handler (from the consumed event to its API calls, retry flag and
returned error). -/
structure Step where
  name : String
  message : String
  handler : Option (List HCmd × Option String)
  msgHandler : Option (Event → List HCmd × Bool × Option String)

/-- The state of one running exchange together with the parts of the bot it
touches. `registered` is membership of this exchange's thread in
`bot.activeExchanges`; `sends` the successfully posted messages; `diags` the
`LogDebug` output; `sendPlan` the transport oracle; `panicked` a Go runtime
panic. -/
structure St where
  steps : List (Int × Step)
  currentStep : Int
  thread : String
  channel : String
  user : String
  store : List (String × List Char)
  registered : Bool
  sends : List String
  diags : List String
  sendPlan : List (Option String)
  panicked : Bool

/-- Source constant `firstStepIndex = 1`. -/
def firstStepIndex : Int := 1

/-- `Exchange.GetCurrentStep`: the step at the cursor, `none` when the map has
no such index (the source returns a nil step plus an error). -/
def getCurrentStep (s : St) : Option Step :=
  List.lookup s.currentStep s.steps

/-- `Bot.LogDebug` with `DebugChannel` unset: append to the log. -/
def logDebug (s : St) (msg : String) : St :=
  { s with diags := s.diags ++ [msg] }

/-- The diagnostic built by `Exchange.handleError`. -/
def errorText (s : St) (stepName err : String) : String :=
  "An error has occurred in exchange " ++ s.channel ++ "-" ++ s.thread ++
    ", step " ++ toString s.currentStep ++ " " ++ stepName ++ ": " ++ err

/-- `Exchange.handleError`: builds the diagnostic from `step.Name`, logs it and
deletes the exchange from `bot.activeExchanges`.  When the step pointer is nil
(the missing-step path of `continueExecution`), evaluating `step.Name` is a
nil-pointer dereference: the process panics before logging or deleting. -/
def handleError (s : St) (step : Option Step) (err : String) : St :=
  match step with
  | none => { s with panicked := true }
  | some st => { logDebug s (errorText s st.name err) with registered := false }

/-- `Bot.ReplyWithOptions` (no circuit breaker configured): post the message;
on transport error log the failure and return the error. -/
def botReply (s : St) (text : String) : St × Option String :=
  match s.sendPlan with
  | [] => ({ s with sends := s.sends ++ [text] }, none)
  | none :: rest => ({ s with sends := s.sends ++ [text], sendPlan := rest }, none)
  | some e :: rest =>
      ({ s with sendPlan := rest,
                diags := s.diags ++
                  ["failure sending message to " ++ s.channel ++ " with - " ++ e] },
       some e)

/-- `Exchange.ReplyWithOptions` / `Exchange.Reply`: send to the exchange's
channel and thread; if the send errors and the current step exists, run
`handleError` on it (removing the exchange from the registry). -/
def exReply (s : St) (msg : String) : St :=
  match botReply s msg with
  | (s1, none) => s1
  | (s1, some e) =>
      match getCurrentStep s1 with
      | some st => handleError s1 (some st) e
      | none => s1

/-- `Exchange.SkipToStep`: move the cursor to `i` when a step with index `i`
exists, otherwise return an error and leave the cursor unchanged. -/
def skipToStep (s : St) (i : Int) : St × Option String :=
  match List.lookup i s.steps with
  | some _ => ({ s with currentStep := i }, none)
  | none => (s, some ("exchange step with index " ++ toString s.currentStep ++ " not found"))

/-- `Exchange.Terminate`: log and delete the exchange from the registry. -/
def terminate (s : St) : St :=
  { logDebug s ("killing exchange " ++ s.thread) with registered := false }

/-- Interpret one exchange-API call made by a handler. -/
def runHCmd (s : St) : HCmd → St
  | .hreply m => exReply s m
  | .hskip i => (skipToStep s i).1
  | .hterminate => terminate s

/-- Interpret a handler body. -/
def runHCmds (s : St) (cmds : List HCmd) : St :=
  cmds.foldl runHCmd s

/-- `Exchange.incrementCurrentStep`: move the cursor to `cursor+1` when that
index exists and report `true`; otherwise leave it and report `false`. -/
def incrementCurrentStep (s : St) : St × Bool :=
  match List.lookup (s.currentStep + 1) s.steps with
  | some _ => ({ s with currentStep := s.currentStep + 1 }, true)
  | none => (s, false)

/-- Outcome of executing the body of `continueExecution` before the advance
logic: a missing-step panic, an error already handled, a suspension (no
behavior ran), a retry re-entry, or a completed step behavior. -/
inductive ExecRes where
  | panicRes (s : St)
  | errored (s : St)
  | suspended (s : St)
  | retried (s : St)
  | stepOk (s : St)

/-- The body of `Exchange.continueExecution` up to the advance logic, mirroring
the source precedence: missing step ⇒ `handleError` on the nil step; message ⇒
send it; else handler ⇒ run it, error ⇒ `handleError`; else message handler
with an event present ⇒ run it, `retry` checked before the error, then error ⇒
`handleError`; otherwise return (suspend). -/
def execOne (s : St) (ev : Option Event) : ExecRes :=
  match getCurrentStep s with
  | none =>
      .panicRes (handleError s none
        ("exchange step with index " ++ toString s.currentStep ++ " not found"))
  | some step =>
      if step.message != "" then
        .stepOk (exReply s step.message)
      else
        match step.handler with
        | some (cmds, herr) =>
            let s1 := runHCmds s cmds
            match herr with
            | some e => .errored (handleError s1 (some step) e)
            | none => .stepOk s1
        | none =>
            match step.msgHandler, ev with
            | some mh, some e =>
                match mh e with
                | (cmds, retry, herr) =>
                    let s1 := runHCmds s cmds
                    if retry then .retried s1
                    else
                      match herr with
                      | some er => .errored (handleError s1 (some step) er)
                      | none => .stepOk s1
            | _, _ => .suspended s

/-- `Exchange.continueExecution` with explicit fuel (`none` = fuel exhausted).
After a completed step behavior: if the cursor is unchanged and cannot be
incremented, the exchange is complete and is deleted from the registry;
otherwise recurse with no event. -/
def contExec : Nat → St → Option Event → Option St
  | 0, _, _ => none
  | Nat.succ n, s, ev =>
      match execOne s ev with
      | .panicRes s1 => some s1
      | .errored s1 => some s1
      | .suspended s1 => some s1
      | .retried s1 => contExec n s1 none
      | .stepOk s1 =>
          if s1.currentStep = s.currentStep then
            match incrementCurrentStep s1 with
            | (s2, true) => contExec n s2 none
            | (s2, false) => some { s2 with registered := false }
          else contExec n s1 none

/-- `Bot.startExchange` after the deep copy: the fresh exchange state, with the
cursor at `firstStepIndex`, a fresh store, thread = the trigger's timestamp,
registered in `bot.activeExchanges`. -/
def initExchange (steps : List (Int × Step)) (ev : Event)
    (plan : List (Option String)) : St :=
  { steps := steps
    currentStep := firstStepIndex
    thread := ev.timestamp
    channel := ev.channel
    user := ev.user
    store := []
    registered := true
    sends := []
    diags := []
    sendPlan := plan
    panicked := false }

/-- `Bot.startExchange`: register the fresh exchange, then immediately invoke
the continuation with no inbound event. -/
def startExchange (fuel : Nat) (steps : List (Int × Step)) (ev : Event)
    (plan : List (Option String)) : Option St :=
  contExec fuel (initExchange steps ev plan) none

/-! ### Dispatch engine (`Bot.processMessage`) -/

/-- `pfx` begins the character list. -/
def listPref : List Char → List Char → Bool
  | [], _ => true
  | _ :: _, [] => false
  | a :: as, b :: bs => a == b && listPref as bs

/-- `strings.HasPrefix s pfx`. -/
def strHasPref (pfx s : String) : Bool :=
  listPref pfx.data s.data

/-- `strings.TrimPrefix s pfx`. -/
def trimPref (pfx s : String) : String :=
  if strHasPref pfx s then ⟨s.data.drop pfx.data.length⟩ else s

/-- `strings.TrimSpace`. -/
def trimSpace (s : String) : String :=
  ⟨((s.data.dropWhile Char.isWhitespace).reverse.dropWhile Char.isWhitespace).reverse⟩

/-- A configured `Listener`: whether its regex matches a given text, and
whether its `Handler` is non-nil. -/
structure Listener where
  usage : String
  regexMatch : String → Bool
  handlerSet : Bool

/-- A configured `Exchange` template as seen by dispatch: its trigger regex. -/
structure ExchangeTpl where
  regexMatch : String → Bool

/-- The bot configuration read by `processMessage`. -/
structure BotCfg where
  botID : String
  indirectListeners : List Listener
  directListeners : List Listener
  exchanges : List ExchangeTpl

/-- One observable action taken by `processMessage`. -/
inductive DispatchAct where
  | indirectHandler (i : Nat)
  | continueExchange (thread : String)
  | exchangeStart (i : Nat)
  | directHandler (i : Nat)
  | fallback
deriving Repr, DecidableEq

/-- The indirect-listener loop: every matching listener with a non-nil handler
runs. -/
def matchingIndirect (bot : BotCfg) (text : String) : List DispatchAct :=
  bot.indirectListeners.enum.filterMap fun p =>
    if p.2.regexMatch text && p.2.handlerSet then some (.indirectHandler p.1) else none

/-- The guard in `Bot.processMessage`: the sender is non-empty, not the bot,
the text non-empty, and the message is a direct message (channel prefixed
"D"), begins with the bot's mention prefix, or its thread already has an
active exchange (`activeThreads` is the key set of `bot.activeExchanges`). -/
def addressedCond (bot : BotCfg) (activeThreads : List String) (ev : Event) : Bool :=
  ev.user != "" && ev.user != bot.botID && ev.text != "" &&
    (strHasPref "D" ev.channel || strHasPref ("<@" ++ bot.botID ++ "> ") ev.text
      || activeThreads.contains ev.threadTimestamp)

/-- `Bot.processMessage`, as the list of actions it takes, in order: run all
matching indirect listeners; then, only under `addressedCond`: strip the
mention prefix and trim; continue the active exchange, else start the first
matching exchange template, else run the first matching direct listener, else
fall back when the message is not itself in a thread. -/
def processMessage (bot : BotCfg) (activeThreads : List String) (ev : Event) :
    List DispatchAct :=
  let ind := matchingIndirect bot ev.text
  let pfx := "<@" ++ bot.botID ++ "> "
  let activeThread := activeThreads.contains ev.threadTimestamp
  if addressedCond bot activeThreads ev then
    let text := trimSpace (trimPref pfx ev.text)
    if activeThread then ind ++ [.continueExchange ev.threadTimestamp]
    else
      match bot.exchanges.findIdx? (fun e => e.regexMatch text) with
      | some i => ind ++ [.exchangeStart i]
      | none =>
          match bot.directListeners.findIdx? (fun l => l.regexMatch text) with
          | some i =>
              ind ++ (match bot.directListeners[i]? with
                      | some l => if l.handlerSet then [.directHandler i] else []
                      | none => [])
          | none => if ev.threadTimestamp = "" then ind ++ [.fallback] else ind
  else ind

/-! ### Circuit breaker (`Bot.checkCircuitBreaker`) -/

/-- Source `CircuitBreaker`, with instants and durations as integers. -/
structure CircuitBreaker where
  maxMessages : Int
  timeInterval : Int
  intervalStart : Int
  count : Int
deriving Repr, DecidableEq

/-- What a circuit-breaker check does: pass, or send the final tripped notice
to the channel and terminate the whole process (`os.Exit`). -/
inductive CBOutcome where
  | pass
  | tripped
deriving Repr, DecidableEq

/-- `Bot.checkCircuitBreaker` at current time `now`: no-op without a breaker;
otherwise increment the count; if `intervalStart` is before `now` minus the
window, reset the window start to `now` and the count to 1; else trip when the
count exceeds `maxMessages`. -/
def checkCircuitBreaker : Option CircuitBreaker → Int → Option CircuitBreaker × CBOutcome
  | none, _ => (none, .pass)
  | some cb, now =>
      let cb1 : CircuitBreaker := { cb with count := cb.count + 1 }
      if cb1.intervalStart < now - cb1.timeInterval then
        (some { cb1 with intervalStart := now, count := 1 }, .pass)
      else if cb1.count > cb1.maxMessages then
        (some cb1, .tripped)
      else
        (some cb1, .pass)

/-! ### Default store (`SimpleStore`) -/

/-- A serializable (gob-encodable) value: a string or an integer.  The Go
`interface{}` argument is `Option GobVal`, with `none` for a nil value. -/
inductive GobVal where
  | gstr (s : String)
  | gint (n : Int)
deriving Repr, DecidableEq

/-- The opaque byte encoding (`gob`): a tag character followed by an injective
payload. -/
def gobEncode : GobVal → List Char
  | .gstr s => 'S' :: s.data
  | .gint n =>
      if n < 0 then 'I' :: '-' :: List.replicate (-n).toNat 'x'
      else 'I' :: '+' :: List.replicate n.toNat 'x'

/-- Decoding of the opaque byte encoding. -/
def gobDecode : List Char → Option GobVal
  | 'S' :: rest => some (.gstr ⟨rest⟩)
  | 'I' :: '-' :: rest => some (.gint (-(rest.length : Int)))
  | 'I' :: '+' :: rest => some (.gint (rest.length : Int))
  | _ => none

/-- `SimpleStore`: a map from string keys to encoded bytes. -/
abbrev SimpleStore := List (String × List Char)

/-- Removal of a key (Go map `delete` / overwrite). -/
def storeErase (s : SimpleStore) (k : String) : SimpleStore :=
  s.filter fun p => p.1 != k

/-- `SimpleStore.Put`: error on a nil value, otherwise encode and assign. -/
def storePut (s : SimpleStore) (k : String) (v : Option GobVal) :
    SimpleStore × Option String :=
  match v with
  | none => (s, some ("error try to put key " ++ k))
  | some v => ((k, gobEncode v) :: storeErase s k, none)

/-- `SimpleStore.Get`: error when the key is absent, otherwise decode. -/
def storeGet (s : SimpleStore) (k : String) : Except String GobVal :=
  match List.lookup k s with
  | none => .error ("key " ++ k ++ " not found")
  | some bs =>
      match gobDecode bs with
      | some v => .ok v
      | none => .error "decode error"

/-- `SimpleStore.Delete`: error when the key is absent, otherwise remove. -/
def storeDelete (s : SimpleStore) (k : String) : SimpleStore × Option String :=
  match List.lookup k s with
  | none => (s, some ("key " ++ k ++ " not found"))
  | some _ => (storeErase s k, none)

/-- The step collection of a template whose indices start at `i` and increase
by exactly one (the documented shape of `Exchange.Steps`). -/
def indexedSteps : Int → List Step → List (Int × Step)
  | _, [] => []
  | i, st :: rest => (i, st) :: indexedSteps (i + 1) rest

/-- A handler API call that cannot move the cursor or deregister the
exchange: a reply. -/
def tameCmd : HCmd → Bool
  | .hreply _ => true
  | _ => false

/-- An auto-advancing step: a non-empty message, or a handler that succeeds
(`nil` error) using only replies. -/
def autoStep (st : Step) : Bool :=
  (st.message != "") ||
    (match st.handler with
     | some (cmds, none) => cmds.all tameCmd
     | _ => false)

/-- The messages replied by a handler body. -/
def replyMsgs (cmds : List HCmd) : List String :=
  cmds.filterMap fun c => match c with | .hreply m => some m | _ => none

/-- The state carried by a step-execution outcome. -/
def ExecRes.state : ExecRes → St
  | .panicRes s => s
  | .errored s => s
  | .suspended s => s
  | .retried s => s
  | .stepOk s => s

/-- The registered-cursor invariant: while the exchange is registered, the
cursor refers to an existing index of its step map. -/
def cursorOk (s : St) : Prop :=
  s.registered = true → (getCurrentStep s).isSome = true

/-! ### Concrete instances used by the theorems -/

/-- The failing input for the missing-step claim: an exchange whose `Steps`
map has no entry at the cursor (for example a template with an empty step
map), registered on its thread, with the continuation invoked. -/
def missingStepSt : St :=
  { steps := [], currentStep := 1, thread := "T1", channel := "C1", user := "U1",
    store := [], registered := true, sends := [], diags := [],
    sendPlan := [], panicked := false }

/-- A message-handler step returning `retry = true` together with a non-nil
error. -/
def retryErrStep : Step :=
  { name := "color", message := "", handler := none,
    msgHandler := some (fun _ => ([], true, some "boom")) }

/-- An exchange suspended on `retryErrStep`. -/
def retryErrSt : St :=
  { steps := [(1, retryErrStep)], currentStep := 1, thread := "T1",
    channel := "C1", user := "U1", store := [], registered := true,
    sends := [], diags := [], sendPlan := [], panicked := false }

/-- The inbound event consumed by `retryErrStep`. -/
def retryErrEv : Event :=
  { user := "U2", text := "blue", channel := "C1", threadTimestamp := "T1",
    timestamp := "2" }

/-- A message-handler step returning `retry = false` and an error. -/
def failStep : Step :=
  { name := "n1", message := "", handler := none,
    msgHandler := some (fun _ => ([], false, some "bad input")) }

/-- An exchange suspended on `failStep`. -/
def failSt : St :=
  { steps := [(1, failStep)], currentStep := 1, thread := "T1",
    channel := "C1", user := "U1", store := [], registered := true,
    sends := [], diags := [], sendPlan := [], panicked := false }

/-- A two-step exchange used as a concrete `SkipToStep` witness. -/
def skipSt : St :=
  { steps := [(1, failStep), (2, retryErrStep)], currentStep := 1,
    thread := "T1", channel := "C1", user := "U1", store := [],
    registered := true, sends := [], diags := [], sendPlan := [],
    panicked := false }

/-- A bot configuration with one indirect listener, one direct listener and
one exchange template, all with matching patterns and handlers. -/
def wBot : BotCfg :=
  { botID := "B1"
    indirectListeners := [{ usage := "", regexMatch := fun t => t == "hello", handlerSet := true }]
    directListeners := [{ usage := "", regexMatch := fun _ => true, handlerSet := true }]
    exchanges := [{ regexMatch := fun _ => true }] }

/-- An event from another user in a public channel with no mention prefix
and no thread. -/
def wEvU : Event :=
  { user := "U9", text := "hello", channel := "C5", threadTimestamp := "",
    timestamp := "1" }

/-- A first step whose literal message will fail to send. -/
def msgStep1 : Step :=
  { name := "s1", message := "m1", handler := none, msgHandler := none }

/-- A second message step executed after the failed send. -/
def msgStep2 : Step :=
  { name := "s2", message := "m2", handler := none, msgHandler := none }

/-- A two-message-step exchange whose first transport send errors. -/
def sendFailSt : St :=
  { steps := [(1, msgStep1), (2, msgStep2)], currentStep := 1, thread := "T1",
    channel := "C1", user := "U1", store := [], registered := true,
    sends := [], diags := [], sendPlan := [some "failz"], panicked := false }

/-- An auto-advancing handler step replying "done" and succeeding. -/
def wStepH : Step :=
  { name := "s2", message := "", handler := some ([HCmd.hreply "done"], none),
    msgHandler := none }

/-! ### Helper lemmas -/

theorem lookup_cons_if {α β : Type} [BEq α] (k a : α) (b : β) (es : List (α × β)) :
    List.lookup k ((a, b) :: es) = if k == a then some b else List.lookup k es := by
  cases h : k == a <;> simp [List.lookup, h]

theorem contExec_succ (n : Nat) (s : St) (ev : Option Event) :
    contExec (n + 1) s ev
      = match execOne s ev with
        | .panicRes s1 => some s1
        | .errored s1 => some s1
        | .suspended s1 => some s1
        | .retried s1 => contExec n s1 none
        | .stepOk s1 =>
            if s1.currentStep = s.currentStep then
              match incrementCurrentStep s1 with
              | (s2, true) => contExec n s2 none
              | (s2, false) => some { s2 with registered := false }
            else contExec n s1 none := rfl

theorem lookup_indexedSteps_none (tmpl : List Step) :
    ∀ i j : Int, (j < i ∨ i + tmpl.length ≤ j) →
      List.lookup j (indexedSteps i tmpl) = none := by
  induction tmpl with
  | nil => intro i j _; rfl
  | cons st rest ih =>
      intro i j h
      have hne : ¬ j = i := by
        rcases h with h | h
        · omega
        · simp only [List.length_cons] at h
          push_cast at h
          omega
      rw [indexedSteps, lookup_cons_if, if_neg (by simp [hne])]
      apply ih
      rcases h with h | h
      · left; omega
      · right
        simp only [List.length_cons] at h
        push_cast at h ⊢
        omega

theorem lookup_indexedSteps_mem (tmpl : List Step) :
    ∀ i j : Int, i ≤ j → j < i + tmpl.length →
      ∃ st, List.lookup j (indexedSteps i tmpl) = some st ∧ st ∈ tmpl := by
  induction tmpl with
  | nil =>
      intro i j h1 h2
      simp only [List.length_nil] at h2
      push_cast at h2
      omega
  | cons st rest ih =>
      intro i j h1 h2
      by_cases hj : j = i
      · exact ⟨st, by rw [indexedSteps, lookup_cons_if, if_pos (by simp [hj])],
          List.mem_cons_self _ _⟩
      · obtain ⟨st', hl, hm⟩ := ih (i + 1) j (by omega)
          (by simp only [List.length_cons] at h2; push_cast at h2 ⊢; omega)
        exact ⟨st', by rw [indexedSteps, lookup_cons_if, if_neg (by simp [hj])]; exact hl,
          List.mem_cons_of_mem _ hm⟩

theorem exReply_ok (s : St) (m : String) (h : s.sendPlan = []) :
    exReply s m = { s with sends := s.sends ++ [m] } := by
  simp only [exReply, botReply, h]

theorem runHCmds_tame (cmds : List HCmd) :
    ∀ s : St, s.sendPlan = [] → cmds.all tameCmd = true →
      runHCmds s cmds = { s with sends := s.sends ++ replyMsgs cmds } := by
  induction cmds with
  | nil =>
      intro s _ _
      simp [runHCmds, replyMsgs]
  | cons c rest ih =>
      intro s hplan hall
      cases c with
      | hreply m =>
          have h1 : runHCmds s (.hreply m :: rest)
              = runHCmds { s with sends := s.sends ++ [m] } rest := by
            simp only [runHCmds, List.foldl_cons, runHCmd, exReply_ok s m hplan]
          rw [h1, ih { s with sends := s.sends ++ [m] } (by exact hplan)
            (by simpa [List.all_cons, tameCmd] using hall)]
          simp [replyMsgs]
      | hskip i => simp [List.all_cons, tameCmd] at hall
      | hterminate => simp [List.all_cons, tameCmd] at hall

theorem execOne_missing (s : St) (ev : Option Event)
    (hg : getCurrentStep s = none) :
    execOne s ev = ExecRes.panicRes { s with panicked := true } := by
  unfold execOne
  rw [hg]
  rfl

theorem execOne_msg (s : St) (ev : Option Event) (st : Step)
    (hg : getCurrentStep s = some st) (hm : (st.message != "") = true) :
    execOne s ev = ExecRes.stepOk (exReply s st.message) := by
  unfold execOne
  rw [hg]
  simp [hm]

theorem execOne_handler_ok (s : St) (ev : Option Event) (st : Step)
    (cmds : List HCmd) (hg : getCurrentStep s = some st)
    (hm : (st.message != "") = false) (hh : st.handler = some (cmds, none)) :
    execOne s ev = ExecRes.stepOk (runHCmds s cmds) := by
  unfold execOne
  rw [hg]
  simp [hm, hh]

theorem execOne_handler_err (s : St) (ev : Option Event) (st : Step)
    (cmds : List HCmd) (e : String) (hg : getCurrentStep s = some st)
    (hm : (st.message != "") = false) (hh : st.handler = some (cmds, some e)) :
    execOne s ev = ExecRes.errored (handleError (runHCmds s cmds) (some st) e) := by
  unfold execOne
  rw [hg]
  simp [hm, hh]

theorem execOne_mh_retry (s : St) (e : Event) (st : Step)
    (mh : Event → List HCmd × Bool × Option String) (cmds : List HCmd)
    (herr : Option String) (hg : getCurrentStep s = some st)
    (hm : (st.message != "") = false) (hh : st.handler = none)
    (hmh : st.msgHandler = some mh) (hr : mh e = (cmds, true, herr)) :
    execOne s (some e) = ExecRes.retried (runHCmds s cmds) := by
  unfold execOne
  rw [hg]
  simp [hm, hh, hmh, hr]

theorem execOne_mh_err (s : St) (e : Event) (st : Step)
    (mh : Event → List HCmd × Bool × Option String) (cmds : List HCmd)
    (er : String) (hg : getCurrentStep s = some st)
    (hm : (st.message != "") = false) (hh : st.handler = none)
    (hmh : st.msgHandler = some mh) (hr : mh e = (cmds, false, some er)) :
    execOne s (some e) = ExecRes.errored (handleError (runHCmds s cmds) (some st) er) := by
  unfold execOne
  rw [hg]
  simp [hm, hh, hmh, hr]

theorem execOne_mh_ok (s : St) (e : Event) (st : Step)
    (mh : Event → List HCmd × Bool × Option String) (cmds : List HCmd)
    (hg : getCurrentStep s = some st)
    (hm : (st.message != "") = false) (hh : st.handler = none)
    (hmh : st.msgHandler = some mh) (hr : mh e = (cmds, false, none)) :
    execOne s (some e) = ExecRes.stepOk (runHCmds s cmds) := by
  unfold execOne
  rw [hg]
  simp [hm, hh, hmh, hr]

theorem execOne_suspend_noev (s : St) (st : Step)
    (hg : getCurrentStep s = some st) (hm : (st.message != "") = false)
    (hh : st.handler = none) :
    execOne s none = ExecRes.suspended s := by
  unfold execOne
  rw [hg]
  cases hmh : st.msgHandler <;> simp [hm, hh, hmh]

theorem execOne_suspend_nomh (s : St) (ev : Option Event) (st : Step)
    (hg : getCurrentStep s = some st) (hm : (st.message != "") = false)
    (hh : st.handler = none) (hmh : st.msgHandler = none) :
    execOne s ev = ExecRes.suspended s := by
  unfold execOne
  rw [hg]
  cases ev <;> simp [hm, hh, hmh]

theorem cursorOk_unreg {s : St} (h : s.registered = false) : cursorOk s := by
  intro hr
  rw [h] at hr
  cases hr

theorem cursorOk_of_fields {s s' : St} (hsteps : s'.steps = s.steps)
    (hcur : s'.currentStep = s.currentStep)
    (hreg : s'.registered = true → s.registered = true)
    (h : cursorOk s) : cursorOk s' := by
  intro hr
  have h2 := h (hreg hr)
  show (List.lookup s'.currentStep s'.steps).isSome = true
  rw [hsteps, hcur]
  exact h2

theorem botReply_fields (s : St) (m : String) :
    (botReply s m).1.steps = s.steps ∧ (botReply s m).1.currentStep = s.currentStep
      ∧ (botReply s m).1.registered = s.registered := by
  unfold botReply
  cases s.sendPlan with
  | nil => exact ⟨rfl, rfl, rfl⟩
  | cons o rest => cases o <;> exact ⟨rfl, rfl, rfl⟩

theorem cursorOk_exReply (s : St) (m : String) (h : cursorOk s) :
    cursorOk (exReply s m) := by
  unfold exReply
  obtain ⟨h1, h2, h3⟩ := botReply_fields s m
  cases hb : botReply s m with
  | mk s1 e =>
      rw [hb] at h1 h2 h3
      dsimp only at h1 h2 h3
      cases e with
      | none =>
          dsimp only
          exact cursorOk_of_fields h1 h2 (fun hr => h3.symm.trans hr) h
      | some er =>
          dsimp only
          cases hg : getCurrentStep s1 with
          | some st => exact cursorOk_unreg rfl
          | none => exact cursorOk_of_fields h1 h2 (fun hr => h3.symm.trans hr) h

theorem cursorOk_skipToStep (s : St) (i : Int) (h : cursorOk s) :
    cursorOk (skipToStep s i).1 := by
  unfold skipToStep
  cases hl : List.lookup i s.steps with
  | some st =>
      intro _
      have hg : getCurrentStep { s with currentStep := i } = some st := by
        show List.lookup i s.steps = some st
        exact hl
      rw [hg]
      rfl
  | none => exact h

theorem cursorOk_runHCmd (s : St) (c : HCmd) (h : cursorOk s) :
    cursorOk (runHCmd s c) := by
  cases c with
  | hreply m => exact cursorOk_exReply s m h
  | hskip i => exact cursorOk_skipToStep s i h
  | hterminate => exact cursorOk_unreg rfl

theorem cursorOk_runHCmds (cmds : List HCmd) :
    ∀ s : St, cursorOk s → cursorOk (runHCmds s cmds) := by
  induction cmds with
  | nil => intro s h; exact h
  | cons c rest ih =>
      intro s h
      show cursorOk (runHCmds (runHCmd s c) rest)
      exact ih _ (cursorOk_runHCmd s c h)

theorem cursorOk_execOne (s : St) (ev : Option Event) (h : cursorOk s) :
    cursorOk (execOne s ev).state := by
  cases hg : getCurrentStep s with
  | none =>
      rw [execOne_missing s ev hg]
      exact cursorOk_of_fields rfl rfl (fun hr => hr) h
  | some st =>
      cases hm : (st.message != "") with
      | true =>
          rw [execOne_msg s ev st hg hm]
          exact cursorOk_exReply s st.message h
      | false =>
          cases hh : st.handler with
          | some p =>
              obtain ⟨cmds, herr⟩ := p
              cases herr with
              | none =>
                  rw [execOne_handler_ok s ev st cmds hg hm hh]
                  exact cursorOk_runHCmds cmds s h
              | some e =>
                  rw [execOne_handler_err s ev st cmds e hg hm hh]
                  exact cursorOk_unreg rfl
          | none =>
              cases hmh : st.msgHandler with
              | none =>
                  rw [execOne_suspend_nomh s ev st hg hm hh hmh]
                  exact h
              | some mh =>
                  cases ev with
                  | none =>
                      rw [execOne_suspend_noev s st hg hm hh]
                      exact h
                  | some e =>
                      rcases hr : mh e with ⟨cmds, retry, herr⟩
                      cases retry with
                      | true =>
                          rw [execOne_mh_retry s e st mh cmds herr hg hm hh hmh hr]
                          exact cursorOk_runHCmds cmds s h
                      | false =>
                          cases herr with
                          | some er =>
                              rw [execOne_mh_err s e st mh cmds er hg hm hh hmh hr]
                              exact cursorOk_unreg rfl
                          | none =>
                              rw [execOne_mh_ok s e st mh cmds hg hm hh hmh hr]
                              exact cursorOk_runHCmds cmds s h

theorem cursorOk_contExec :
    ∀ (fuel : Nat) (s : St) (ev : Option Event) (s' : St),
      cursorOk s → contExec fuel s ev = some s' → cursorOk s' := by
  intro fuel
  induction fuel with
  | zero => intro s ev s' _ hrun; cases hrun
  | succ n ih =>
      intro s ev s' h hrun
      rw [contExec_succ] at hrun
      have hall := cursorOk_execOne s ev h
      cases hres : execOne s ev with
      | panicRes s1 =>
          rw [hres] at hrun hall
          dsimp only at hrun
          injection hrun with h'
          exact h' ▸ hall
      | errored s1 =>
          rw [hres] at hrun hall
          dsimp only at hrun
          injection hrun with h'
          exact h' ▸ hall
      | suspended s1 =>
          rw [hres] at hrun hall
          dsimp only at hrun
          injection hrun with h'
          exact h' ▸ hall
      | retried s1 =>
          rw [hres] at hrun hall
          dsimp only at hrun
          exact ih s1 none s' hall hrun
      | stepOk s1 =>
          rw [hres] at hrun hall
          dsimp only at hrun
          by_cases hc : s1.currentStep = s.currentStep
          · rw [if_pos hc] at hrun
            cases hl : List.lookup (s1.currentStep + 1) s1.steps with
            | some st2 =>
                have hi : incrementCurrentStep s1
                    = ({ s1 with currentStep := s1.currentStep + 1 }, true) := by
                  unfold incrementCurrentStep
                  rw [hl]
                rw [hi] at hrun
                dsimp only at hrun
                refine ih _ none s' ?_ hrun
                intro _
                have hg2 : getCurrentStep ({ s1 with currentStep := s1.currentStep + 1 })
                    = some st2 := by
                  show List.lookup (s1.currentStep + 1) s1.steps = some st2
                  exact hl
                rw [hg2]
                rfl
            | none =>
                have hi : incrementCurrentStep s1 = (s1, false) := by
                  unfold incrementCurrentStep
                  rw [hl]
                rw [hi] at hrun
                dsimp only at hrun
                injection hrun with h'
                exact h' ▸ cursorOk_unreg rfl
          · rw [if_neg hc] at hrun
            exact ih s1 none s' hall hrun

theorem execOne_auto (s : St) (st : Step)
    (hget : getCurrentStep s = some st)
    (hauto : autoStep st = true)
    (hplan : s.sendPlan = []) :
    ∃ msgs, execOne s none = ExecRes.stepOk ({ s with sends := s.sends ++ msgs }) := by
  by_cases hm : (st.message != "") = true
  · refine ⟨[st.message], ?_⟩
    rw [execOne_msg s none st hget hm, exReply_ok s st.message hplan]
  · have hm' : (st.message != "") = false := by
      simpa using hm
    have hh : (match st.handler with
        | some (cmds, none) => cmds.all tameCmd
        | _ => false) = true := by
      unfold autoStep at hauto
      rw [Bool.or_eq_true] at hauto
      rcases hauto with h | h
      · exact absurd h (by simp [hm'])
      · exact h
    cases hh2 : st.handler with
    | none =>
        rw [hh2] at hh
        simp at hh
    | some p =>
        obtain ⟨cmds, herr⟩ := p
        cases herr with
        | some e =>
            rw [hh2] at hh
            simp at hh
        | none =>
            rw [hh2] at hh
            refine ⟨replyMsgs cmds, ?_⟩
            rw [execOne_handler_ok s none st cmds hget hm' hh2,
               runHCmds_tame cmds s hplan hh]

theorem contExec_auto (tmpl : List Step)
    (hauto : ∀ st ∈ tmpl, autoStep st = true) :
    ∀ (k fuel : Nat) (s : St),
      s.steps = indexedSteps 1 tmpl →
      s.sendPlan = [] →
      s.currentStep + (k : Int) = (tmpl.length : Int) →
      1 ≤ s.currentStep →
      k + 1 ≤ fuel →
      ∃ s', contExec fuel s none = some s'
        ∧ s'.registered = false
        ∧ s'.currentStep = (tmpl.length : Int)
        ∧ s'.panicked = s.panicked := by
  intro k
  induction k with
  | zero =>
      intro fuel s hsteps hplan hcur h1 hfuel
      obtain ⟨f, rfl⟩ : ∃ f, fuel = f + 1 := ⟨fuel - 1, by omega⟩
      obtain ⟨st, hl, hm⟩ := lookup_indexedSteps_mem tmpl 1 s.currentStep h1
        (by push_cast at hcur ⊢; omega)
      have hget : getCurrentStep s = some st := by
        show List.lookup s.currentStep s.steps = some st
        rw [hsteps]; exact hl
      obtain ⟨msgs, hex⟩ := execOne_auto s st hget (hauto st hm) hplan
      have hnone : List.lookup (s.currentStep + 1) (indexedSteps 1 tmpl) = none :=
        lookup_indexedSteps_none tmpl 1 (s.currentStep + 1)
          (by right; push_cast at hcur ⊢; omega)
      have hincf : incrementCurrentStep ({ s with sends := s.sends ++ msgs })
          = ({ s with sends := s.sends ++ msgs }, false) := by
        unfold incrementCurrentStep
        dsimp only
        rw [hsteps, hnone]
      refine ⟨{ s with sends := s.sends ++ msgs, registered := false }, ?_, rfl, ?_, rfl⟩
      · rw [contExec_succ, hex]
        dsimp only
        rw [if_pos rfl, hincf]
      · dsimp only
        push_cast at hcur
        omega
  | succ k ih =>
      intro fuel s hsteps hplan hcur h1 hfuel
      obtain ⟨f, rfl⟩ : ∃ f, fuel = f + 1 := ⟨fuel - 1, by omega⟩
      obtain ⟨st, hl, hm⟩ := lookup_indexedSteps_mem tmpl 1 s.currentStep h1
        (by push_cast at hcur ⊢; omega)
      have hget : getCurrentStep s = some st := by
        show List.lookup s.currentStep s.steps = some st
        rw [hsteps]; exact hl
      obtain ⟨msgs, hex⟩ := execOne_auto s st hget (hauto st hm) hplan
      obtain ⟨st2, hl2, _⟩ := lookup_indexedSteps_mem tmpl 1 (s.currentStep + 1)
        (by omega) (by push_cast at hcur ⊢; omega)
      have hincf : incrementCurrentStep ({ s with sends := s.sends ++ msgs })
          = ({ s with sends := s.sends ++ msgs, currentStep := s.currentStep + 1 }, true) := by
        unfold incrementCurrentStep
        dsimp only
        rw [hsteps, hl2]
      obtain ⟨s', hrun, hreg, hcur', hpan⟩ := ih f
        ({ s with sends := s.sends ++ msgs, currentStep := s.currentStep + 1 })
        (by exact hsteps) (by exact hplan)
        (by dsimp only; push_cast at hcur ⊢; omega)
        (by dsimp only; omega)
        (by omega)
      refine ⟨s', ?_, hreg, hcur', by exact hpan⟩
      rw [contExec_succ, hex]
      dsimp only
      rw [if_pos rfl, hincf]
      dsimp only
      exact hrun

theorem gob_round_trip (v : GobVal) : gobDecode (gobEncode v) = some v := by
  cases v with
  | gstr s => cases s; rfl
  | gint n =>
      by_cases hn : n < 0
      · simp only [gobEncode, if_pos hn, gobDecode, List.length_replicate]
        rw [Int.toNat_of_nonneg (by omega)]
        simp
      · simp only [gobEncode, if_neg hn, gobDecode, List.length_replicate]
        rw [Int.toNat_of_nonneg (by omega)]

/-! ### Claim theorems -/

/-- C2 (code bug): when the cursor has no step in the `Steps` map, the claim
(and the source's own test for this path) requires a diagnostic and removal
from the registry with no crash; instead `continueExecution` passes the nil
step to `handleError`, which dereferences `step.Name` and panics — no
diagnostic is logged and the exchange stays registered. -/
theorem C2_missing_step_panics :
    (contExec 1 missingStepSt none).map (fun s => (s.panicked, s.registered, s.diags))
      = some (true, true, ([] : List String)) := rfl

/-- C3 counterexample: a `MsgHandler` invoked with an event present returns
the non-nil error "boom", yet the exchange is not terminated — it stays in
the registry and no diagnostic is emitted, because the source checks the
`retry` flag before the error. -/
theorem C3_retry_error_not_terminated :
    (contExec 2 retryErrSt (some retryErrEv)).map (fun s => (s.registered, s.diags))
      = some (true, ([] : List String)) := rfl

/-- C3 (amended): a `MsgHandler` error terminates the exchange (diagnostic
plus removal from the registry) only when `retry = false`; when
`retry = true` the continuation immediately re-enters the same step with no
event and the returned error is ignored. -/
theorem C3_msg_handler_error (s : St) (st : Step)
    (mh : Event → List HCmd × Bool × Option String) (e : Event)
    (cmds : List HCmd) (er : String) (fuel : Nat)
    (hstep : getCurrentStep s = some st)
    (hmsg : st.message = "")
    (hh : st.handler = none)
    (hmh : st.msgHandler = some mh) :
    (mh e = (cmds, false, some er) →
        contExec (fuel + 1) s (some e)
            = some (handleError (runHCmds s cmds) (some st) er)
        ∧ (handleError (runHCmds s cmds) (some st) er).registered = false
        ∧ (handleError (runHCmds s cmds) (some st) er).diags
            = (runHCmds s cmds).diags
                ++ [errorText (runHCmds s cmds) st.name er])
    ∧ (∀ herr, mh e = (cmds, true, herr) →
        contExec (fuel + 1) s (some e) = contExec fuel (runHCmds s cmds) none) := by
  constructor
  · intro hret
    refine ⟨?_, rfl, rfl⟩
    show (match execOne s (some e) with
      | .panicRes s1 => some s1
      | .errored s1 => some s1
      | .suspended s1 => some s1
      | .retried s1 => contExec fuel s1 none
      | .stepOk s1 =>
          if s1.currentStep = s.currentStep then
            match incrementCurrentStep s1 with
            | (s2, true) => contExec fuel s2 none
            | (s2, false) => some { s2 with registered := false }
          else contExec fuel s1 none)
      = some (handleError (runHCmds s cmds) (some st) er)
    simp [execOne, hstep, hmsg, hh, hmh, hret]
  · intro herr hret
    show (match execOne s (some e) with
      | .panicRes s1 => some s1
      | .errored s1 => some s1
      | .suspended s1 => some s1
      | .retried s1 => contExec fuel s1 none
      | .stepOk s1 =>
          if s1.currentStep = s.currentStep then
            match incrementCurrentStep s1 with
            | (s2, true) => contExec fuel s2 none
            | (s2, false) => some { s2 with registered := false }
          else contExec fuel s1 none)
      = contExec fuel (runHCmds s cmds) none
    simp [execOne, hstep, hmsg, hh, hmh, hret]

/-- Witness for `C3_msg_handler_error` at a concrete exchange. -/
theorem C3_msg_handler_error_w :
    contExec 2 failSt (some retryErrEv)
        = some (handleError (runHCmds failSt []) (some failStep) "bad input")
    ∧ (handleError (runHCmds failSt []) (some failStep) "bad input").registered = false := by
  have h := (C3_msg_handler_error failSt failStep
      (fun _ => ([], false, some "bad input")) retryErrEv [] "bad input" 1
      rfl rfl rfl rfl).1 rfl
  exact ⟨h.1, h.2.1⟩

/-- C4: a circuit-breaker check with a configured breaker increments the
count; when the current time is past window-start plus the window duration
the window restarts (start := now, count := 1) and the send passes; otherwise
it trips exactly when the incremented count exceeds `maxMessages` (the trip
sends the final notice and terminates the process).  Concretely with
`maxMessages = 1`, window 10 starting at 100: the second send at time 105
trips, while a send at time 111 (window elapsed) passes and resets the
window. -/
theorem C4_circuit_breaker (cb : CircuitBreaker) (now : Int) :
    (now > cb.intervalStart + cb.timeInterval →
        checkCircuitBreaker (some cb) now
          = (some { cb with intervalStart := now, count := 1 }, CBOutcome.pass))
    ∧ (¬ now > cb.intervalStart + cb.timeInterval →
        (checkCircuitBreaker (some cb) now).1 = some { cb with count := cb.count + 1 }
        ∧ ((checkCircuitBreaker (some cb) now).2 = CBOutcome.tripped
            ↔ cb.count + 1 > cb.maxMessages))
    ∧ checkCircuitBreaker (some ⟨1, 10, 100, 0⟩) 100 = (some ⟨1, 10, 100, 1⟩, CBOutcome.pass)
    ∧ checkCircuitBreaker (some ⟨1, 10, 100, 1⟩) 105 = (some ⟨1, 10, 100, 2⟩, CBOutcome.tripped)
    ∧ checkCircuitBreaker (some ⟨1, 10, 100, 1⟩) 111 = (some ⟨1, 10, 111, 1⟩, CBOutcome.pass) := by
  refine ⟨?_, ?_, by decide, by decide, by decide⟩
  · intro h
    simp only [checkCircuitBreaker]
    rw [if_pos (by omega)]
  · intro h
    simp only [checkCircuitBreaker]
    rw [if_neg (by omega)]
    by_cases h2 : cb.count + 1 > cb.maxMessages
    · rw [if_pos (by omega)]
      simp [h2]
    · rw [if_neg (by omega)]
      simp [h2]

/-- Witness for `C4_circuit_breaker`: a send after the window has elapsed
resets the window and passes. -/
theorem C4_circuit_breaker_w :
    checkCircuitBreaker (some ⟨1, 10, 100, 0⟩) 120
      = (some ⟨1, 10, 120, 1⟩, CBOutcome.pass) :=
  (C4_circuit_breaker ⟨1, 10, 100, 0⟩ 120).1 (by decide)

/-- C8: `SkipToStep i` on an exchange with no step of index `i` returns an
error and leaves the state (hence the cursor) unchanged; on an existing index
it returns nil, sets the cursor to `i`, and the current step becomes the step
at `i` (the next continuation resumes there). -/
theorem C8_skip_to_step (s : St) (i : Int) :
    (List.lookup i s.steps = none →
        (skipToStep s i).1 = s ∧ (skipToStep s i).2.isSome = true)
    ∧ ∀ st, List.lookup i s.steps = some st →
        (skipToStep s i).2 = none ∧ (skipToStep s i).1.currentStep = i
        ∧ getCurrentStep (skipToStep s i).1 = some st := by
  constructor
  · intro h
    simp [skipToStep, h]
  · intro st h
    simp [skipToStep, h, getCurrentStep]

/-- Witness for `C8_skip_to_step`: skipping to the existing index 2 and to
the absent index 3. -/
theorem C8_skip_to_step_w :
    ((skipToStep skipSt 2).2 = none ∧ (skipToStep skipSt 2).1.currentStep = 2
        ∧ getCurrentStep (skipToStep skipSt 2).1 = some retryErrStep)
    ∧ ((skipToStep skipSt 3).1 = skipSt ∧ (skipToStep skipSt 3).2.isSome = true) :=
  ⟨(C8_skip_to_step skipSt 2).2 retryErrStep rfl,
   (C8_skip_to_step skipSt 3).1 rfl⟩

/-- C9: for the default store, `Put k v` followed by `Get k` returns `v` for
every serializable non-nil value; `Get` on a key never put errors; `Delete`
on an absent key errors and leaves the store (hence the number of stored
entries) unchanged; `Put k nil` errors and stores nothing. -/
theorem C9_store_round_trip (s : SimpleStore) (k k2 : String) (v : GobVal)
    (h2 : List.lookup k2 s = none) :
    storeGet (storePut s k (some v)).1 k = Except.ok v
    ∧ (∃ e, storeGet s k2 = Except.error e)
    ∧ (storeDelete s k2).1 = s
    ∧ (∃ e, (storeDelete s k2).2 = some e)
    ∧ (storeDelete s k2).1.length = s.length
    ∧ (∃ e, (storePut s k none).2 = some e)
    ∧ (storePut s k none).1 = s := by
  refine ⟨?_, ?_, ?_, ?_, ?_, ?_, ?_⟩
  · simp [storePut, storeGet, lookup_cons_if, gob_round_trip]
  · exact ⟨"key " ++ k2 ++ " not found", by simp [storeGet, h2]⟩
  · simp [storeDelete, h2]
  · exact ⟨"key " ++ k2 ++ " not found", by simp [storeDelete, h2]⟩
  · simp [storeDelete, h2]
  · exact ⟨_, rfl⟩
  · rfl

/-- Witness for `C9_store_round_trip` on a concrete store, key and value. -/
theorem C9_store_round_trip_w :
    storeGet (storePut [("a", ['S'])] "color" (some (GobVal.gstr "blue"))).1 "color"
      = Except.ok (GobVal.gstr "blue")
    ∧ (∃ e, storeGet [("a", ['S'])] "b" = Except.error e) := by
  have h := C9_store_round_trip [("a", ['S'])] "color" "b" (GobVal.gstr "blue") (by decide)
  exact ⟨h.1, h.2.1⟩

/-- C6: an inbound event that is not addressed to the bot (not a direct
message, no mention prefix, thread not in the registry), or whose sender is
the bot itself, or whose text is empty, produces only the indirect-listener
actions: no direct listener handler runs, no exchange is started or
continued, and no fallback is sent. -/
theorem C6_unaddressed_no_action (bot : BotCfg) (reg : List String) (ev : Event)
    (h : (strHasPref "D" ev.channel = false
          ∧ strHasPref ("<@" ++ bot.botID ++ "> ") ev.text = false
          ∧ reg.contains ev.threadTimestamp = false)
         ∨ ev.user = bot.botID ∨ ev.text = "") :
    processMessage bot reg ev = matchingIndirect bot ev.text
    ∧ ∀ a ∈ processMessage bot reg ev, ∃ i, a = DispatchAct.indirectHandler i := by
  have hcond : addressedCond bot reg ev = false := by
    unfold addressedCond
    rcases h with ⟨h1, h2, h3⟩ | h | h
    · rw [h1, h2, h3]
      simp
    · rw [h]
      simp
    · rw [h]
      simp
  have hmain : processMessage bot reg ev = matchingIndirect bot ev.text := by
    simp only [processMessage]
    rw [hcond]
    simp
  refine ⟨hmain, ?_⟩
  rw [hmain]
  intro a ha
  simp only [matchingIndirect, List.mem_filterMap] at ha
  obtain ⟨p, _, hp⟩ := ha
  by_cases hc : (p.2.regexMatch ev.text && p.2.handlerSet) = true
  · rw [if_pos hc] at hp
    exact ⟨p.1, (Option.some.inj hp).symm⟩
  · rw [if_neg hc] at hp
    cases hp

/-- Witness for `C6_unaddressed_no_action`: the unaddressed event only runs
the matching indirect listener. -/
theorem C6_unaddressed_no_action_w :
    processMessage wBot ["T9"] wEvU = matchingIndirect wBot wEvU.text :=
  (C6_unaddressed_no_action wBot ["T9"] wEvU
    (Or.inl ⟨by decide, by decide, by decide⟩)).1

/-- C10 (implicit): when sending a message step's text fails, the reply path
itself removes the exchange from the registry (via `handleError`), yet the
same `continueExecution` invocation treats the step as successful: the
cursor is advanced to the next step and execution continues with the
remaining steps even though the exchange is no longer registered. -/
theorem C10_send_failure_continues (s : St) (st : Step) (e : String)
    (rest : List (Option String)) (fuel : Nat) (ev : Option Event)
    (hstep : getCurrentStep s = some st)
    (hmsg : st.message != "")
    (hplan : s.sendPlan = some e :: rest)
    (hnext : (List.lookup (s.currentStep + 1) s.steps).isSome = true) :
    (exReply s st.message).registered = false
    ∧ (exReply s st.message).currentStep = s.currentStep
    ∧ (exReply s st.message).diags
        = s.diags ++ ["failure sending message to " ++ s.channel ++ " with - " ++ e,
                      errorText s st.name e]
    ∧ contExec (fuel + 1) s ev
        = contExec fuel ({ exReply s st.message with currentStep := s.currentStep + 1 }) none := by
  have hget : getCurrentStep
      ({ s with
         sendPlan := rest,
         diags := s.diags ++
           ["failure sending message to " ++ s.channel ++ " with - " ++ e] })
      = some st := hstep
  obtain ⟨st2, hst2⟩ : ∃ st2, List.lookup (s.currentStep + 1) s.steps = some st2 :=
    Option.isSome_iff_exists.mp hnext
  have h1 : (exReply s st.message).registered = false := by
    simp [exReply, botReply, hplan, hget, handleError, logDebug]
  have h2 : (exReply s st.message).currentStep = s.currentStep := by
    simp [exReply, botReply, hplan, hget, handleError, logDebug]
  have h3 : (exReply s st.message).steps = s.steps := by
    simp [exReply, botReply, hplan, hget, handleError, logDebug]
  refine ⟨h1, h2, ?_, ?_⟩
  · simp [exReply, botReply, hplan, hget, handleError, logDebug, errorText]
  · show (match execOne s ev with
      | .panicRes s1 => some s1
      | .errored s1 => some s1
      | .suspended s1 => some s1
      | .retried s1 => contExec fuel s1 none
      | .stepOk s1 =>
          if s1.currentStep = s.currentStep then
            match incrementCurrentStep s1 with
            | (s2, true) => contExec fuel s2 none
            | (s2, false) => some { s2 with registered := false }
          else contExec fuel s1 none)
      = contExec fuel ({ exReply s st.message with currentStep := s.currentStep + 1 }) none
    have hexec : execOne s ev = .stepOk (exReply s st.message) := by
      simp [execOne, hstep, hmsg]
    rw [hexec]
    have hinc : incrementCurrentStep (exReply s st.message)
        = ({ exReply s st.message with currentStep := s.currentStep + 1 }, true) := by
      simp only [incrementCurrentStep, h2, h3, hst2]
    dsimp only
    rw [if_pos h2, hinc]

/-- Witness for `C10_send_failure_continues` at the concrete failing-send
exchange. -/
theorem C10_send_failure_continues_w :
    (exReply sendFailSt "m1").registered = false
    ∧ contExec 2 sendFailSt none
        = contExec 1 ({ exReply sendFailSt "m1" with
                        currentStep := sendFailSt.currentStep + 1 }) none := by
  have h := C10_send_failure_continues sendFailSt msgStep1 "failz" [] 1 none
    rfl (by decide) rfl (by decide)
  exact ⟨h.1, h.2.2.2⟩

/-- C5: an exchange instantiated from a template all of whose steps are
auto-advancing (a non-empty message or a succeeding reply-only handler, no
message-handler steps), with every send succeeding, runs every step within
the instantiation call itself: with enough fuel the continuation started by
`startExchange` terminates with the exchange removed from the registry, the
cursor on the last step, and no panic — and no inbound event is ever
consumed (every continuation call passes `none`). -/
theorem C5_auto_exchange (tmpl : List Step) (ev : Event) (fuel : Nat)
    (hne : 1 ≤ tmpl.length)
    (hauto : ∀ st ∈ tmpl, autoStep st = true)
    (hfuel : tmpl.length ≤ fuel) :
    ∃ s', startExchange fuel (indexedSteps 1 tmpl) ev [] = some s'
      ∧ s'.registered = false
      ∧ s'.currentStep = (tmpl.length : Int)
      ∧ s'.panicked = false := by
  obtain ⟨s', h1, h2, h3, h4⟩ := contExec_auto tmpl hauto (tmpl.length - 1) fuel
    (initExchange (indexedSteps 1 tmpl) ev [])
    rfl rfl
    (by show (1 : Int) + ((tmpl.length - 1 : Nat) : Int) = (tmpl.length : Int); omega)
    (by show (1 : Int) <= 1; omega)
    (by omega)
  exact ⟨s', h1, h2, h3, h4⟩

/-- Witness for `C5_auto_exchange`: a message step followed by a handler
step runs to completion with no inbound event. -/
theorem C5_auto_exchange_w :
    ∃ s', startExchange 2 (indexedSteps 1 [msgStep1, wStepH]) wEvU [] = some s'
      ∧ s'.registered = false
      ∧ s'.currentStep = (([msgStep1, wStepH] : List Step).length : Int)
      ∧ s'.panicked = false :=
  C5_auto_exchange [msgStep1, wStepH] wEvU 2 (by simp) (by decide) (by simp)

/-- C7: for an exchange instantiated from a template with contiguous 1-based
step indices, the cursor refers to an existing key of the step map at all
times while the exchange is registered: instantiation sets the cursor to
`firstStepIndex = 1` (an existing index, so the invariant holds initially),
`incrementCurrentStep` moves the cursor to `cursor+1` exactly when that key
exists and leaves it unchanged otherwise, `SkipToStep` succeeds only onto an
existing index and leaves the state unchanged on error, and every
continuation run preserves the invariant. -/
theorem C7_cursor_invariant (tmpl : List Step) (ev : Event)
    (plan : List (Option String)) (hne : 1 <= tmpl.length) :
    (initExchange (indexedSteps 1 tmpl) ev plan).currentStep = firstStepIndex
    ∧ firstStepIndex = 1
    ∧ cursorOk (initExchange (indexedSteps 1 tmpl) ev plan)
    ∧ (∀ (s : St) (st : Step), List.lookup (s.currentStep + 1) s.steps = some st →
        incrementCurrentStep s = ({ s with currentStep := s.currentStep + 1 }, true))
    ∧ (∀ s : St, List.lookup (s.currentStep + 1) s.steps = none →
        incrementCurrentStep s = (s, false))
    ∧ (∀ (s : St) (i : Int), (skipToStep s i).2 = none →
        (getCurrentStep (skipToStep s i).1).isSome = true)
    ∧ (∀ (s : St) (i : Int), (skipToStep s i).2.isSome = true → (skipToStep s i).1 = s)
    ∧ (∀ (fuel : Nat) (s : St) (ev2 : Option Event) (s' : St),
        cursorOk s → contExec fuel s ev2 = some s' → cursorOk s') := by
  refine ⟨rfl, rfl, ?_, ?_, ?_, ?_, ?_, cursorOk_contExec⟩
  · intro _
    obtain ⟨st, hl, _⟩ := lookup_indexedSteps_mem tmpl 1 1 (by omega) (by omega)
    have hg : getCurrentStep (initExchange (indexedSteps 1 tmpl) ev plan) = some st := by
      show List.lookup (1 : Int) (indexedSteps 1 tmpl) = some st
      exact hl
    rw [hg]
    rfl
  · intro s st hl
    unfold incrementCurrentStep
    rw [hl]
  · intro s hl
    unfold incrementCurrentStep
    rw [hl]
  · intro s i h
    cases hl : List.lookup i s.steps with
    | some st =>
        have h1 : (skipToStep s i).1 = { s with currentStep := i } := by
          unfold skipToStep
          rw [hl]
        rw [h1]
        have hg : getCurrentStep { s with currentStep := i } = some st := by
          show List.lookup i s.steps = some st
          exact hl
        rw [hg]
        rfl
    | none =>
        have h2 : (skipToStep s i).2
            = some ("exchange step with index " ++ toString s.currentStep ++ " not found") := by
          unfold skipToStep
          rw [hl]
        rw [h2] at h
        cases h
  · intro s i h
    cases hl : List.lookup i s.steps with
    | some st =>
        have h2 : (skipToStep s i).2 = none := by
          unfold skipToStep
          rw [hl]
        rw [h2] at h
        simp at h
    | none =>
        unfold skipToStep
        rw [hl]

/-- Witness for `C7_cursor_invariant` at a concrete one-step template,
together with a concrete successful increment. -/
theorem C7_cursor_invariant_w :
    (initExchange (indexedSteps 1 [msgStep1]) wEvU []).currentStep = firstStepIndex
    ∧ cursorOk (initExchange (indexedSteps 1 [msgStep1]) wEvU [])
    ∧ incrementCurrentStep skipSt
        = ({ skipSt with currentStep := skipSt.currentStep + 1 }, true) := by
  have h := C7_cursor_invariant [msgStep1] wEvU [] (by simp)
  exact ⟨h.1, h.2.2.1, h.2.2.2.1 skipSt retryErrStep rfl⟩

end Slackbot
